import Mathlib

/-!
Verification of the chacha-cli streaming transform (src/chacha.rs, src/main.rs).

Bytes are modelled as natural numbers; byte buffers as lists. The
ChaCha20Poly1305 primitive is an external, audited collaborator (the spec
explicitly excludes its internals), so it is modelled as an abstract AEAD
interface: a total in-place encryption function and a fallible in-place
decryption function, both taking key, nonce and buffer. The two producers
(ChaChaEncryptor, ChaChaDecryptor) and the sink helper (write_iter_bytes)
are translated from the source. Panics (expect / unwrap_or_else) are
modelled as an Except error result that aborts the pull. The input stream
(Box of dyn Read) is modelled as an in-memory byte buffer, matching the
byte-source collaborator of the spec and the Cursor used in the tests:
read_to_end consumes all remaining bytes and cannot fail; read_exact fails
when fewer bytes remain than requested. The nonce drawn from OsRng during
ChaChaEncryptor::new is modelled as an explicit parameter of `new` holding
the value of that draw.
-/

/-- NonceSize of ChaCha20Poly1305: 12 bytes. -/
def nonceSize : Nat := 12

/-- Poly1305 authentication tag length: 16 bytes. -/
def tagSize : Nat := 16

/-- ChaCha20Poly1305 key length: 32 bytes. -/
def keySize : Nat := 32

/-- Abstract AEAD primitive (external collaborator). `encrypt key nonce buf`
returns ciphertext plus tag; `decrypt key nonce buf` returns the plaintext
when the authentication tag verifies, `none` otherwise. -/
structure Aead where
  encrypt : List Nat → List Nat → List Nat → List Nat
  decrypt : List Nat → List Nat → List Nat → Option (List Nat)

/-- A cipher context bound to a fixed key, as built by `build_cipher`
(src/main.rs lines 73-76). -/
structure Cipher where
  aead : Aead
  key : List Nat

/-- encrypt_in_place on the cipher (no associated data). -/
def Cipher.encrypt_in_place (c : Cipher) (nonce buf : List Nat) : List Nat :=
  c.aead.encrypt c.key nonce buf

/-- decrypt_in_place on the cipher (no associated data). -/
def Cipher.decrypt_in_place (c : Cipher) (nonce buf : List Nat) : Option (List Nat) :=
  c.aead.decrypt c.key nonce buf

/-- Read.read_exact on an in-memory stream: succeeds with the first `n`
bytes and the remainder iff at least `n` bytes remain. -/
def readExact (n : Nat) (s : List Nat) : Option (List Nat × List Nat) :=
  if n ≤ s.length then some (s.take n, s.drop n) else none

/-- Read.read_to_end on an in-memory stream: all remaining bytes, leaving
the stream empty. Cannot fail on an in-memory buffer. -/
def readToEnd (s : List Nat) : List Nat × List Nat :=
  (s, [])

/-- The fatal abort conditions of the two producers (each one an `expect`
or `unwrap_or_else` panic site in src/chacha.rs). -/
inductive ChaChaError where
  | failedToReadNonce
  | failedToDecrypt
  deriving DecidableEq, Repr

/-- Encryptor phases (src/chacha.rs lines 8-12). -/
inductive ChaChaEncryptorPhase where
  | Nonce
  | Ciphertext
  | Complete
  deriving DecidableEq, Repr

/-- ChaChaEncryptor state (src/chacha.rs lines 14-19). -/
structure ChaChaEncryptor where
  cipher : Cipher
  nonce : List Nat
  input_stream : List Nat
  phase : ChaChaEncryptorPhase

/-- ChaChaEncryptor::new (src/chacha.rs lines 22-31). The fresh nonce drawn
from OsRng during construction is passed in as `nonceDrawn`: the
construction stores exactly that draw and starts in phase Nonce. -/
def ChaChaEncryptor.new (cipher : Cipher) (nonceDrawn : List Nat)
    (input_stream : List Nat) : ChaChaEncryptor :=
  { cipher := cipher
    nonce := nonceDrawn
    input_stream := input_stream
    phase := ChaChaEncryptorPhase.Nonce }

/-- ChaChaEncryptor::next (src/chacha.rs lines 39-57). A pull returns
either an error (a panic site fired), or an optional chunk together with
the successor state; `none` signals end-of-sequence. -/
def ChaChaEncryptor.next (e : ChaChaEncryptor) :
    Except ChaChaError (Option (List Nat) × ChaChaEncryptor) :=
  match e.phase with
  | ChaChaEncryptorPhase.Nonce =>
    Except.ok (some e.nonce, { e with phase := ChaChaEncryptorPhase.Ciphertext })
  | ChaChaEncryptorPhase.Ciphertext =>
    let (buffer, rest) := readToEnd e.input_stream
    let ct := e.cipher.encrypt_in_place e.nonce buffer
    Except.ok (some ct,
      { e with input_stream := rest, phase := ChaChaEncryptorPhase.Complete })
  | ChaChaEncryptorPhase.Complete =>
    Except.ok (none, e)

/-- Decryptor phases (src/chacha.rs lines 60-63). -/
inductive ChaChaDecryptorPhase where
  | Plaintext
  | Complete
  deriving DecidableEq, Repr

/-- ChaChaDecryptor state (src/chacha.rs lines 65-69). -/
structure ChaChaDecryptor where
  cipher : Cipher
  input_stream : List Nat
  phase : ChaChaDecryptorPhase

/-- ChaChaDecryptor::new (src/chacha.rs lines 72-79). -/
def ChaChaDecryptor.new (cipher : Cipher) (input_stream : List Nat) :
    ChaChaDecryptor :=
  { cipher := cipher
    input_stream := input_stream
    phase := ChaChaDecryptorPhase.Plaintext }

/-- ChaChaDecryptor::next (src/chacha.rs lines 87-108): read exactly
NonceSize bytes (abort on failure: malformed input), read the rest as
ciphertext, decrypt in place (abort on authentication failure), emit the
plaintext and move to Complete. -/
def ChaChaDecryptor.next (d : ChaChaDecryptor) :
    Except ChaChaError (Option (List Nat) × ChaChaDecryptor) :=
  match d.phase with
  | ChaChaDecryptorPhase.Plaintext =>
    match readExact nonceSize d.input_stream with
    | none => Except.error ChaChaError.failedToReadNonce
    | some (nonce_buffer, rest) =>
      let (buffer, rest2) := readToEnd rest
      match d.cipher.decrypt_in_place nonce_buffer buffer with
      | none => Except.error ChaChaError.failedToDecrypt
      | some pt =>
        Except.ok (some pt,
          { d with input_stream := rest2, phase := ChaChaDecryptorPhase.Complete })
  | ChaChaDecryptorPhase.Complete =>
    Except.ok (none, d)

/-- Rank of an encryptor phase: strictly decreases on each chunk-emitting
pull, used to drain the iterator to exhaustion. -/
def ChaChaEncryptorPhase.rank : ChaChaEncryptorPhase → Nat
  | ChaChaEncryptorPhase.Nonce => 2
  | ChaChaEncryptorPhase.Ciphertext => 1
  | ChaChaEncryptorPhase.Complete => 0

/-- Rank of a decryptor phase. -/
def ChaChaDecryptorPhase.rank : ChaChaDecryptorPhase → Nat
  | ChaChaDecryptorPhase.Plaintext => 1
  | ChaChaDecryptorPhase.Complete => 0

/-- Pull the encryptor until it signals end-of-sequence, collecting the
chunks in emission order (the `.flatten().collect()` of the tests, before
flattening); an abort in any pull aborts the whole drain. -/
def ChaChaEncryptor.drain (e : ChaChaEncryptor) :
    Except ChaChaError (List (List Nat)) :=
  match h : e.next with
  | Except.error err => Except.error err
  | Except.ok (none, _) => Except.ok []
  | Except.ok (some c, e2) =>
    match e2.drain with
    | Except.error err => Except.error err
    | Except.ok cs => Except.ok (c :: cs)
termination_by e.phase.rank
decreasing_by
  cases hp : e.phase <;>
    simp [ChaChaEncryptor.next, hp, readToEnd] at h
  · cases h.2; simp [hp, ChaChaEncryptorPhase.rank]
  · cases h.2; simp [hp, ChaChaEncryptorPhase.rank]

/-- Pull the decryptor until it signals end-of-sequence, collecting the
chunks in emission order. -/
def ChaChaDecryptor.drain (d : ChaChaDecryptor) :
    Except ChaChaError (List (List Nat)) :=
  match h : d.next with
  | Except.error err => Except.error err
  | Except.ok (none, _) => Except.ok []
  | Except.ok (some c, d2) =>
    match d2.drain with
    | Except.error err => Except.error err
    | Except.ok cs => Except.ok (c :: cs)
termination_by d.phase.rank
decreasing_by
  cases hp : d.phase <;>
    simp [ChaChaDecryptor.next, hp, readToEnd] at h
  cases hr : readExact nonceSize d.input_stream with
  | none => simp [hr] at h
  | some pr =>
    obtain ⟨nb, rest⟩ := pr
    simp [hr] at h
    cases hd : d.cipher.decrypt_in_place nb rest with
    | none => simp [hd] at h
    | some pt =>
      simp [hd] at h
      cases h.2
      simp [hp, ChaChaDecryptorPhase.rank]

/-- Sink events: a full write of one chunk, or a flush of the sink. Used to
record the order of operations that write_iter_bytes performs. -/
inductive WriteEvent where
  | write (bytes : List Nat)
  | flushed
  deriving DecidableEq, Repr

/-- A byte sink (the Write collaborator of src/main.rs): its accumulated
contents together with the log of operations performed on it. -/
structure ByteWriter where
  contents : List Nat
  events : List WriteEvent

/-- write_all on the sink: appends the whole chunk to the contents. Cannot
fail on an in-memory sink. -/
def ByteWriter.write_all (w : ByteWriter) (bytes : List Nat) : ByteWriter :=
  { contents := w.contents ++ bytes
    events := w.events ++ [WriteEvent.write bytes] }

/-- flush on the sink. -/
def ByteWriter.flush (w : ByteWriter) : ByteWriter :=
  { w with events := w.events ++ [WriteEvent.flushed] }

/-- write_iter_bytes (src/main.rs lines 80-85): write_all each chunk of the
sequence in order, then flush once. -/
def write_iter_bytes (bytes_iter : List (List Nat)) (writer : ByteWriter) : ByteWriter :=
  (bytes_iter.foldl (fun w bytes => w.write_all bytes) writer).flush

/-- A concrete stand-in AEAD instance used to exercise the producers on
closed inputs: ciphertext is the plaintext followed by a checksum tag of
tagSize bytes; decryption re-derives and checks the tag. -/
def toyTag (key nonce ct : List Nat) : List Nat :=
  List.replicate tagSize ((key.sum + 2 * nonce.sum + 3 * ct.sum + ct.length) % 256)

/-- The stand-in AEAD built from toyTag. -/
def toyAead : Aead where
  encrypt := fun key nonce pt => pt ++ toyTag key nonce pt
  decrypt := fun key nonce buf =>
    if tagSize ≤ buf.length then
      let ct := buf.take (buf.length - tagSize)
      if buf.drop (buf.length - tagSize) = toyTag key nonce ct then some ct
      else none
    else none

/-- All-zero 32-byte key. -/
def key0 : List Nat := List.replicate keySize 0

/-- All-one 32-byte key. -/
def key1 : List Nat := List.replicate keySize 1

/-- All-zero 12-byte nonce. -/
def nonce0 : List Nat := List.replicate nonceSize 0

/-- All-one 12-byte nonce. -/
def nonce1 : List Nat := List.replicate nonceSize 1

/-- The bytes of the ASCII string hello. -/
def helloBytes : List Nat := [104, 101, 108, 108, 111]

/-- A well-formed ciphertext stream for the stand-in AEAD: nonce followed
by ciphertext plus tag. -/
def wellFormedInput : List Nat := nonce0 ++ toyAead.encrypt key0 nonce0 helloBytes

/-- The same stream with the first ciphertext byte altered, so the tag no
longer verifies. -/
def tamperedInput : List Nat :=
  nonce0 ++ List.modifyHead (fun b => b + 1) (toyAead.encrypt key0 nonce0 helloBytes)

/-- An exhausted encryptor state. -/
def doneEncryptor : ChaChaEncryptor :=
  { cipher := { aead := toyAead, key := key0 }
    nonce := nonce0
    input_stream := []
    phase := ChaChaEncryptorPhase.Complete }

/-- An exhausted decryptor state. -/
def doneDecryptor : ChaChaDecryptor :=
  { cipher := { aead := toyAead, key := key0 }
    input_stream := []
    phase := ChaChaDecryptorPhase.Complete }

/-- One pull of an encryptor in phase Nonce: the nonce chunk, advancing to
Ciphertext; the cipher, nonce and input stream are untouched. -/
theorem ChaChaEncryptor.next_nonce (e : ChaChaEncryptor)
    (h : e.phase = ChaChaEncryptorPhase.Nonce) :
    e.next = Except.ok (some e.nonce,
      { e with phase := ChaChaEncryptorPhase.Ciphertext }) := by
  simp [ChaChaEncryptor.next, h]

/-- Draining a freshly constructed encryptor yields exactly the nonce chunk
followed by the ciphertext chunk. -/
theorem ChaChaEncryptor.drain_new (c : Cipher) (n P : List Nat) :
    (ChaChaEncryptor.new c n P).drain =
      Except.ok [n, c.encrypt_in_place n P] := by
  simp [ChaChaEncryptor.drain, ChaChaEncryptor.new, ChaChaEncryptor.next,
    readToEnd]

/-- One pull of a freshly constructed decryptor whose source holds at least
NonceSize bytes and whose payload decrypts: the plaintext chunk, advancing
to Complete with the source drained. -/
theorem ChaChaDecryptor.next_new_ok (c : Cipher) (input pt : List Nat)
    (hlen : nonceSize ≤ input.length)
    (hd : c.decrypt_in_place (input.take nonceSize) (input.drop nonceSize) =
      some pt) :
    (ChaChaDecryptor.new c input).next =
      Except.ok (some pt,
        { cipher := c, input_stream := [],
          phase := ChaChaDecryptorPhase.Complete }) := by
  simp [ChaChaDecryptor.new, ChaChaDecryptor.next, readExact, readToEnd,
    hlen, hd]

/-- Draining a decryptor in phase Complete yields no chunks. -/
theorem ChaChaDecryptor.drain_complete (d : ChaChaDecryptor)
    (h : d.phase = ChaChaDecryptorPhase.Complete) : d.drain = Except.ok [] := by
  have hn : d.next = Except.ok (none, d) := by
    simp [ChaChaDecryptor.next, h]
  rw [ChaChaDecryptor.drain]
  split
  · rename_i heq
    rw [hn] at heq
    exact absurd heq (by simp)
  · rfl
  · rename_i heq
    rw [hn] at heq
    exact absurd heq (by simp)

/-- Draining a freshly constructed decryptor over a source of at least
NonceSize bytes whose payload decrypts yields exactly the plaintext chunk. -/
theorem ChaChaDecryptor.drain_new_ok (c : Cipher) (input pt : List Nat)
    (hlen : nonceSize ≤ input.length)
    (hd : c.decrypt_in_place (input.take nonceSize) (input.drop nonceSize) =
      some pt) :
    (ChaChaDecryptor.new c input).drain = Except.ok [pt] := by
  have hn := ChaChaDecryptor.next_new_ok c input pt hlen hd
  rw [ChaChaDecryptor.drain]
  split
  · rename_i heq
    rw [hn] at heq
    exact absurd heq (by simp)
  · rename_i heq
    rw [hn] at heq
    exact absurd heq (by simp)
  · rename_i c2 d2 heq
    rw [hn] at heq
    injection heq with heq
    injection heq with h1 h2
    cases h1
    cases h2
    rw [ChaChaDecryptor.drain_complete _ rfl]

/-- A buffer shorter than the tag never authenticates under the stand-in
AEAD (as with the real primitive, whose decrypt_in_place rejects buffers
shorter than the tag). -/
theorem toyAead_decrypt_short (key nonce buf : List Nat)
    (h : buf.length < tagSize) : toyAead.decrypt key nonce buf = none := by
  simp [toyAead]
  omega

/-- Claim C1: for every byte sequence P (including the empty sequence) and
every key, pulling a ChaChaEncryptor constructed over P to exhaustion,
concatenating its chunks, and feeding that concatenation to a
ChaChaDecryptor with the same key, then pulling it to exhaustion and
concatenating its chunks, yields exactly P. Stated for any AEAD primitive
satisfying the primitive round-trip law at (key, nonce, P), with a nonce
of the primitive's nonce length. -/
theorem roundTrip_encrypt_decrypt (A : Aead) (key P nonceDrawn : List Nat)
    (hn : nonceDrawn.length = nonceSize)
    (hrt : A.decrypt key nonceDrawn (A.encrypt key nonceDrawn P) = some P) :
    ∃ encChunks decChunks,
      (ChaChaEncryptor.new { aead := A, key := key } nonceDrawn P).drain =
        Except.ok encChunks ∧
      (ChaChaDecryptor.new { aead := A, key := key } encChunks.flatten).drain =
        Except.ok decChunks ∧
      decChunks.flatten = P := by
  refine ⟨[nonceDrawn,
      Cipher.encrypt_in_place { aead := A, key := key } nonceDrawn P], [P],
    ChaChaEncryptor.drain_new _ _ _, ?_, by simp⟩
  have hjoin : ([nonceDrawn,
      Cipher.encrypt_in_place { aead := A, key := key } nonceDrawn P]).flatten =
      nonceDrawn ++ A.encrypt key nonceDrawn P := by
    simp [Cipher.encrypt_in_place]
  rw [hjoin]
  apply ChaChaDecryptor.drain_new_ok
  · simp [← hn]
  · rw [List.take_left' hn, List.drop_left' hn]
    exact hrt

/-- Closed instance of claim C1: the stand-in AEAD round-trips the bytes of
hello through the encryptor and the decryptor. -/
theorem roundTrip_encrypt_decrypt_witness :
    ∃ encChunks decChunks,
      (ChaChaEncryptor.new { aead := toyAead, key := key0 } nonce0
        helloBytes).drain = Except.ok encChunks ∧
      (ChaChaDecryptor.new { aead := toyAead, key := key0 }
        encChunks.flatten).drain = Except.ok decChunks ∧
      decChunks.flatten = helloBytes :=
  roundTrip_encrypt_decrypt toyAead key0 helloBytes nonce0 (by decide)
    (by decide)

/-- Claim C2: a pull of the ChaChaDecryptor returns a plaintext chunk only
when the primitive's authenticated decryption (tag verification) succeeds
on the nonce prefix and ciphertext region of the source, and whenever that
decryption fails the pull aborts fatally with no chunk. -/
theorem decryptor_auth_gate (A : Aead) (key input : List Nat) :
    (∀ (c : List Nat) (d2 : ChaChaDecryptor),
      (ChaChaDecryptor.new { aead := A, key := key } input).next =
        Except.ok (some c, d2) →
      A.decrypt key (input.take nonceSize) (input.drop nonceSize) = some c) ∧
    (nonceSize ≤ input.length →
      A.decrypt key (input.take nonceSize) (input.drop nonceSize) = none →
      (ChaChaDecryptor.new { aead := A, key := key } input).next =
        Except.error ChaChaError.failedToDecrypt) := by
  constructor
  · intro c d2 h
    by_cases hle : nonceSize ≤ input.length
    · cases hd : A.decrypt key (input.take nonceSize) (input.drop nonceSize) with
      | none =>
        simp [ChaChaDecryptor.new, ChaChaDecryptor.next, readExact, readToEnd,
          hle, Cipher.decrypt_in_place, hd] at h
      | some pt =>
        have hok := ChaChaDecryptor.next_new_ok { aead := A, key := key } input
          pt hle (by simpa [Cipher.decrypt_in_place] using hd)
        rw [hok] at h
        injection h with h
        injection h with h1 h2
    · simp [ChaChaDecryptor.new, ChaChaDecryptor.next, readExact, hle] at h
  · intro hle hd
    simp [ChaChaDecryptor.new, ChaChaDecryptor.next, readExact, readToEnd,
      hle, Cipher.decrypt_in_place, hd]

/-- Closed instance of claim C2: altering one ciphertext byte of a valid
stream makes the stand-in tag check fail and the pull abort with the
decryption failure, emitting no chunk. -/
theorem decryptor_auth_gate_witness :
    (ChaChaDecryptor.new { aead := toyAead, key := key0 }
      tamperedInput).next = Except.error ChaChaError.failedToDecrypt :=
  (decryptor_auth_gate toyAead key0 tamperedInput).2 (by decide) (by decide)

/-- Claim C3: a ciphertext source holding fewer than NonceSize (12) bytes
makes the ChaChaDecryptor pull fail with the malformed-input
(truncated-nonce) error: no crash and no silent empty output. -/
theorem decryptor_truncated_input (A : Aead) (key input : List Nat)
    (h : input.length < nonceSize) :
    (ChaChaDecryptor.new { aead := A, key := key } input).next =
      Except.error ChaChaError.failedToReadNonce := by
  have hle : ¬ nonceSize ≤ input.length := by omega
  simp [ChaChaDecryptor.new, ChaChaDecryptor.next, readExact, hle]

/-- Closed instance of claim C3: a one-byte source is rejected as malformed
input. -/
theorem decryptor_truncated_input_witness :
    (ChaChaDecryptor.new { aead := toyAead, key := key0 } [0]).next =
      Except.error ChaChaError.failedToReadNonce :=
  decryptor_truncated_input toyAead key0 [0] (by decide)

/-- Claim C4: for every plaintext source and key the ChaChaEncryptor pull
sequence yields exactly two chunks, the nonce then the ciphertext-plus-tag,
followed by end-of-sequence; for every well-formed ciphertext source (at
least NonceSize bytes, payload authenticating) the ChaChaDecryptor pull
sequence yields exactly one plaintext chunk followed by end-of-sequence. -/
theorem chunk_ordering (A : Aead) (key P nonceDrawn input pt : List Nat)
    (hlen : nonceSize ≤ input.length)
    (hd : A.decrypt key (input.take nonceSize) (input.drop nonceSize) =
      some pt) :
    (∃ e1 e2 : ChaChaEncryptor,
      (ChaChaEncryptor.new { aead := A, key := key } nonceDrawn P).next =
        Except.ok (some nonceDrawn, e1) ∧
      e1.next = Except.ok (some (A.encrypt key nonceDrawn P), e2) ∧
      e2.next = Except.ok (none, e2)) ∧
    (∃ d1 : ChaChaDecryptor,
      (ChaChaDecryptor.new { aead := A, key := key } input).next =
        Except.ok (some pt, d1) ∧
      d1.next = Except.ok (none, d1)) := by
  constructor
  · refine ⟨⟨⟨A, key⟩, nonceDrawn, P, ChaChaEncryptorPhase.Ciphertext⟩,
      ⟨⟨A, key⟩, nonceDrawn, [], ChaChaEncryptorPhase.Complete⟩,
      ?_, ?_, ?_⟩ <;>
      simp [ChaChaEncryptor.new, ChaChaEncryptor.next, readToEnd,
        Cipher.encrypt_in_place]
  · refine ⟨⟨⟨A, key⟩, [], ChaChaDecryptorPhase.Complete⟩,
      ChaChaDecryptor.next_new_ok _ _ _ hlen
        (by simpa [Cipher.decrypt_in_place] using hd), ?_⟩
    simp [ChaChaDecryptor.next]

/-- Closed instance of claim C4: over the stand-in AEAD, the encryptor over
hello emits its two chunks then ends, and the decryptor over the matching
well-formed stream emits the plaintext then ends. -/
theorem chunk_ordering_witness :
    (∃ e1 e2 : ChaChaEncryptor,
      (ChaChaEncryptor.new { aead := toyAead, key := key0 } nonce0
        helloBytes).next = Except.ok (some nonce0, e1) ∧
      e1.next = Except.ok (some (toyAead.encrypt key0 nonce0 helloBytes), e2) ∧
      e2.next = Except.ok (none, e2)) ∧
    (∃ d1 : ChaChaDecryptor,
      (ChaChaDecryptor.new { aead := toyAead, key := key0 }
        wellFormedInput).next = Except.ok (some helloBytes, d1) ∧
      d1.next = Except.ok (none, d1)) :=
  chunk_ordering toyAead key0 helloBytes nonce0 wellFormedInput helloBytes
    (by decide) (by decide)

/-- Claim C5: the concatenated encryptor output is the nonce immediately
followed by the ciphertext region, with no length prefix; its length is
NonceSize plus plaintext length plus tag length, for any primitive whose
ciphertext adds exactly the tag length. -/
theorem encryptor_output_format (A : Aead) (key P nonceDrawn : List Nat)
    (hn : nonceDrawn.length = nonceSize)
    (hct : (A.encrypt key nonceDrawn P).length = P.length + tagSize) :
    ∃ cs, (ChaChaEncryptor.new { aead := A, key := key } nonceDrawn P).drain =
        Except.ok cs ∧
      cs.flatten = nonceDrawn ++ A.encrypt key nonceDrawn P ∧
      cs.flatten.length = nonceSize + (P.length + tagSize) := by
  refine ⟨_, ChaChaEncryptor.drain_new _ _ _, by simp [Cipher.encrypt_in_place], ?_⟩
  simp [Cipher.encrypt_in_place, hct, hn]

/-- Closed instance of claim C5: encrypting the 5 bytes of hello yields 33
bytes of concatenated output. -/
theorem encryptor_output_format_witness :
    ∃ cs, (ChaChaEncryptor.new { aead := toyAead, key := key0 } nonce0
        helloBytes).drain = Except.ok cs ∧
      cs.flatten = nonce0 ++ toyAead.encrypt key0 nonce0 helloBytes ∧
      cs.flatten.length = 33 :=
  encryptor_output_format toyAead key0 helloBytes nonce0 (by decide)
    (by decide)

/-- Claim C6: the nonce is fixed eagerly at construction: the constructed
state stores exactly the value drawn from the random generator, neither
construction nor the first pull consumes plaintext bytes, and the first
pull emits exactly that drawn value. -/
theorem nonce_eager_at_construction (c : Cipher) (nonceDrawn P : List Nat) :
    (ChaChaEncryptor.new c nonceDrawn P).nonce = nonceDrawn ∧
    (ChaChaEncryptor.new c nonceDrawn P).input_stream = P ∧
    ∃ e1, (ChaChaEncryptor.new c nonceDrawn P).next =
        Except.ok (some nonceDrawn, e1) ∧ e1.input_stream = P := by
  refine ⟨rfl, rfl,
    ⟨c, nonceDrawn, P, ChaChaEncryptorPhase.Ciphertext⟩, ?_, rfl⟩
  simp [ChaChaEncryptor.new, ChaChaEncryptor.next]

/-- Claim C7: two independently constructed encryptors over the same
plaintext and key, given distinct draws from the random source, emit
different nonce chunks and different concatenated outputs. -/
theorem nonce_uniqueness (A : Aead) (key P n1 n2 : List Nat)
    (h1 : n1.length = nonceSize) (h2 : n2.length = nonceSize)
    (hne : n1 ≠ n2) :
    (∀ (c1 c2 : List Nat) (e1 e2 : ChaChaEncryptor),
      (ChaChaEncryptor.new { aead := A, key := key } n1 P).next =
        Except.ok (some c1, e1) →
      (ChaChaEncryptor.new { aead := A, key := key } n2 P).next =
        Except.ok (some c2, e2) →
      c1 ≠ c2) ∧
    (∀ cs1 cs2 : List (List Nat),
      (ChaChaEncryptor.new { aead := A, key := key } n1 P).drain =
        Except.ok cs1 →
      (ChaChaEncryptor.new { aead := A, key := key } n2 P).drain =
        Except.ok cs2 →
      cs1.flatten ≠ cs2.flatten) := by
  constructor
  · intro c1 c2 e1 e2 ha hb
    simp [ChaChaEncryptor.new, ChaChaEncryptor.next] at ha hb
    rw [← ha.1, ← hb.1]
    exact hne
  · intro cs1 cs2 ha hb
    rw [ChaChaEncryptor.drain_new] at ha hb
    injection ha with ha
    injection hb with hb
    rw [← ha, ← hb]
    intro heq
    simp at heq
    have := congrArg (List.take nonceSize) heq
    rw [List.take_left' h1, List.take_left' h2] at this
    exact hne this

/-- Closed instance of claim C7: the all-zero and all-one nonce draws give
different nonce chunks and different concatenated outputs over the same
plaintext and key. -/
theorem nonce_uniqueness_witness :
    (∀ (c1 c2 : List Nat) (e1 e2 : ChaChaEncryptor),
      (ChaChaEncryptor.new { aead := toyAead, key := key0 } nonce0
        helloBytes).next = Except.ok (some c1, e1) →
      (ChaChaEncryptor.new { aead := toyAead, key := key0 } nonce1
        helloBytes).next = Except.ok (some c2, e2) →
      c1 ≠ c2) ∧
    (∀ cs1 cs2 : List (List Nat),
      (ChaChaEncryptor.new { aead := toyAead, key := key0 } nonce0
        helloBytes).drain = Except.ok cs1 →
      (ChaChaEncryptor.new { aead := toyAead, key := key0 } nonce1
        helloBytes).drain = Except.ok cs2 →
      cs1.flatten ≠ cs2.flatten) :=
  nonce_uniqueness toyAead key0 helloBytes nonce0 nonce1 (by decide)
    (by decide) (by decide)

/-- Claim C8: once a producer is in phase Complete, every pull signals
end-of-sequence with no chunk and returns the state unchanged, for both
producers; since the state is unchanged, this holds for every subsequent
pull as well. -/
theorem idempotent_exhaustion (e : ChaChaEncryptor) (d : ChaChaDecryptor)
    (he : e.phase = ChaChaEncryptorPhase.Complete)
    (hd : d.phase = ChaChaDecryptorPhase.Complete) :
    e.next = Except.ok (none, e) ∧ d.next = Except.ok (none, d) := by
  constructor
  · simp [ChaChaEncryptor.next, he]
  · simp [ChaChaDecryptor.next, hd]

/-- Closed instance of claim C8: pulling the exhausted producers again
signals end-of-sequence and leaves them unchanged. -/
theorem idempotent_exhaustion_witness :
    doneEncryptor.next = Except.ok (none, doneEncryptor) ∧
    doneDecryptor.next = Except.ok (none, doneDecryptor) :=
  idempotent_exhaustion doneEncryptor doneDecryptor rfl rfl

/-- Each chunk is appended whole, in order, by the write_all fold. -/
theorem foldl_write_all (chunks : List (List Nat)) (w : ByteWriter) :
    chunks.foldl (fun acc bytes => acc.write_all bytes) w =
      { contents := w.contents ++ chunks.flatten
        events := w.events ++ chunks.map WriteEvent.write } := by
  induction chunks generalizing w with
  | nil => simp
  | cons cb cs ih =>
    simp only [List.foldl_cons]
    rw [ih]
    simp [ByteWriter.write_all, List.append_assoc]

/-- Claim C9: write_iter_bytes writes every chunk fully and in emission
order — the final contents are the prior contents followed by the
concatenation of the chunks — and it flushes exactly once, after the last
chunk, never between chunks (the event log is the writes in order followed
by the single flush). -/
theorem write_iter_bytes_contract (chunks : List (List Nat)) (w : ByteWriter) :
    (write_iter_bytes chunks w).contents = w.contents ++ chunks.flatten ∧
    (write_iter_bytes chunks w).events =
      (w.events ++ chunks.map WriteEvent.write) ++ [WriteEvent.flushed] := by
  rw [write_iter_bytes, foldl_write_all]
  exact ⟨rfl, rfl⟩

/-- Claim C10: for a ciphertext source of at least NonceSize bytes the
nonce read succeeds, and when the remaining region is shorter than the tag
(total length below NonceSize plus TagSize) the pull fails at the
authenticated-decryption step, for any primitive that rejects buffers
shorter than the tag; the malformed-input error occurs only for sources
strictly shorter than NonceSize bytes. -/
theorem short_ciphertext_auth_failure (A : Aead) (key input : List Nat)
    (hge : nonceSize ≤ input.length)
    (hlt : input.length < nonceSize + tagSize)
    (htag : ∀ nonce buf : List Nat, buf.length < tagSize →
      A.decrypt key nonce buf = none) :
    (ChaChaDecryptor.new { aead := A, key := key } input).next =
      Except.error ChaChaError.failedToDecrypt ∧
    (∀ input2 : List Nat,
      (ChaChaDecryptor.new { aead := A, key := key } input2).next =
        Except.error ChaChaError.failedToReadNonce →
      input2.length < nonceSize) := by
  constructor
  · have hb : (input.drop nonceSize).length < tagSize := by
      simp
      omega
    have hdec := htag (input.take nonceSize) (input.drop nonceSize) hb
    simp [ChaChaDecryptor.new, ChaChaDecryptor.next, readExact, readToEnd,
      hge, Cipher.decrypt_in_place, hdec]
  · intro input2 h
    by_contra hcon
    push_neg at hcon
    cases hd2 : A.decrypt key (input2.take nonceSize) (input2.drop nonceSize) with
    | none =>
      simp [ChaChaDecryptor.new, ChaChaDecryptor.next, readExact, readToEnd,
        hcon, Cipher.decrypt_in_place, hd2] at h
    | some pt =>
      rw [ChaChaDecryptor.next_new_ok { aead := A, key := key } input2 pt hcon
        (by simpa [Cipher.decrypt_in_place] using hd2)] at h
      exact absurd h (by simp)

/-- Closed instance of claim C10: a source of exactly the 12 nonce bytes
passes the nonce read and is rejected at the decryption step, not as
malformed input. -/
theorem short_ciphertext_auth_failure_witness :
    (ChaChaDecryptor.new { aead := toyAead, key := key0 } nonce0).next =
      Except.error ChaChaError.failedToDecrypt ∧
    (∀ input2 : List Nat,
      (ChaChaDecryptor.new { aead := toyAead, key := key0 } input2).next =
        Except.error ChaChaError.failedToReadNonce →
      input2.length < nonceSize) :=
  short_ciphertext_auth_failure toyAead key0 nonce0 (by decide) (by decide)
    (fun nonce buf h => toyAead_decrypt_short key0 nonce buf h)
